import Mathlib

/-! Shallow embedding of the dashboard script (src/Dashboardd.py).

The script loads an order table, filters it to an inclusive date range taken
from a sidebar control, and derives six aggregate tables from the filtered
rows.  Order timestamps (the order_date column, a pandas datetime) are
embedded as minutes on a linear clock; a calendar day is the quotient by the
number of minutes per day, matching dt.date truncation and daily resampling.
Monetary amounts are embedded as integers. -/

def minutesPerDay : Nat := 1440

/-- Calendar day of a timestamp in minutes; embeds dt.date truncation and
the day bins of resample. -/
def dayOf (t : Nat) : Nat := t / minutesPerDay

/-- Midnight of a calendar day, as a timestamp in minutes; embeds
pd.to_datetime applied to a plain date, which yields the first instant of
that day. -/
def midnight (d : Nat) : Nat := d * minutesPerDay

/-- One row of the loaded order table, with the customer attributes
denormalized onto it, exactly the columns the script touches. -/
structure Order where
  order_id : Nat
  customer_id : Nat
  order_date : Nat
  product_name : String
  quantity_x : Nat
  total_price : Int
  gender : String
  age_group : String
  state : String
deriving DecidableEq

/-- Number of distinct values in a list; embeds the nunique aggregation. -/
def nunique (l : List Nat) : Nat := l.dedup.length

/-- Insert into a sorted list; helper for the embedding of sorted groupby
keys and of sort_values. -/
def insertLe (le : α → α → Bool) (x : α) : List α → List α
  | [] => [x]
  | y :: ys => if le x y then x :: y :: ys else y :: insertLe le x ys

/-- Insertion sort; embeds the sorting pandas performs on groupby keys and
in sort_values (tie order is unspecified by the spec). -/
def insertionSort (le : α → α → Bool) : List α → List α
  | [] => []
  | x :: xs => insertLe le x (insertionSort le xs)

def strLe (a b : String) : Bool := !(decide (b < a))

def natLe (a b : Nat) : Bool := decide (a ≤ b)

/-- Smallest element of a list of naturals, none when empty. -/
def listMin? : List Nat → Option Nat
  | [] => none
  | x :: xs =>
    match listMin? xs with
    | none => some x
    | some m => some (min x m)

/-- Largest element of a list of naturals, none when empty. -/
def listMax? : List Nat → Option Nat
  | [] => none
  | x :: xs =>
    match listMax? xs with
    | none => some x
    | some m => some (max x m)

/-- The consecutive days lo, lo+1, ..., hi; embeds the daily bins that
resample with rule D generates from the earliest to the latest timestamp. -/
def daysRange (lo hi : Nat) : List Nat :=
  (List.range (hi + 1 - lo)).map (fun i => lo + i)

/-- One row of the daily orders aggregate. -/
structure DailyRow where
  order_date : Nat
  order_count : Nat
  revenue : Int
deriving DecidableEq

/-- The calendar days of all rows of the table. -/
def orderDays (df : List Order) : List Nat := df.map (fun r => dayOf r.order_date)

/-- The rows whose order falls on a given calendar day. -/
def rowsOnDay (df : List Order) (d : Nat) : List Order :=
  df.filter (fun r => decide (dayOf r.order_date = d))

/-- Embeds create_daily_orders_df: resample the table by calendar day from
the earliest to the latest order day, counting distinct order ids and
summing total price in each bin; empty input gives an empty table. -/
def create_daily_orders_df (df : List Order) : List DailyRow :=
  match listMin? (orderDays df), listMax? (orderDays df) with
  | some lo, some hi =>
    (daysRange lo hi).map (fun d =>
      { order_date := d
        order_count := nunique ((rowsOnDay df d).map Order.order_id)
        revenue := ((rowsOnDay df d).map Order.total_price).sum })
  | _, _ => []

/-- One row of the product volume aggregate. -/
structure ProductRow where
  product_name : String
  quantity_x : Nat
deriving DecidableEq

def qtyGe (a b : ProductRow) : Bool := decide (b.quantity_x ≤ a.quantity_x)

/-- Embeds create_sum_order_items_df: group by product name (groupby sorts
its keys), sum the quantity column per product, then sort by summed
quantity descending. -/
def create_sum_order_items_df (df : List Order) : List ProductRow :=
  insertionSort qtyGe
    ((insertionSort strLe (df.map Order.product_name).dedup).map (fun p =>
      { product_name := p
        quantity_x :=
          ((df.filter (fun r => decide (r.product_name = p))).map Order.quantity_x).sum }))

/-- One row of the gender breakdown. -/
structure GenderRow where
  gender : String
  customer_count : Nat
deriving DecidableEq

/-- Embeds create_bygender_df: distinct customers per gender. -/
def create_bygender_df (df : List Order) : List GenderRow :=
  (insertionSort strLe (df.map Order.gender).dedup).map (fun g =>
    { gender := g
      customer_count :=
        nunique ((df.filter (fun r => decide (r.gender = g))).map Order.customer_id) })

/-- One row of the age breakdown; the group label is optional because the
categorical cast maps labels outside the fixed category list to null. -/
structure AgeRow where
  age_group : Option String
  customer_count : Nat
deriving DecidableEq

/-- The fixed category list of the age chart. -/
def ageCategories : List String := ["Youth", "Adults", "Seniors"]

/-- The sorted distinct age group labels of the table. -/
def ageKeys (df : List Order) : List String :=
  insertionSort strLe (df.map Order.age_group).dedup

/-- Embeds create_byage_df: distinct customers per age group, then the
pd.Categorical cast of the group column, which keeps labels belonging to
the fixed category list and turns every other label into null. -/
def create_byage_df (df : List Order) : List AgeRow :=
  (ageKeys df).map (fun g =>
    { age_group := if g ∈ ageCategories then some g else none
      customer_count :=
        nunique ((df.filter (fun r => decide (r.age_group = g))).map Order.customer_id) })

/-- One row of the state breakdown. -/
structure StateRow where
  state : String
  customer_count : Nat
deriving DecidableEq

/-- Embeds create_bystate_df: distinct customers per state. -/
def create_bystate_df (df : List Order) : List StateRow :=
  (insertionSort strLe (df.map Order.state).dedup).map (fun s =>
    { state := s
      customer_count :=
        nunique ((df.filter (fun r => decide (r.state = s))).map Order.customer_id) })

/-- One row of the RFM aggregate. -/
structure RfmRow where
  customer_id : Nat
  frequency : Nat
  monetary : Int
  recency : Int
deriving DecidableEq

/-- The rows belonging to one customer. -/
def customerRows (df : List Order) (c : Nat) : List Order :=
  df.filter (fun r => decide (r.customer_id = c))

/-- Latest order timestamp of a customer within the table. -/
def custMaxTime (df : List Order) (c : Nat) : Nat :=
  ((customerRows df c).map Order.order_date).foldl max 0

/-- Embeds recent_date inside create_rfm_df: the latest order day of the
table the function receives. -/
def recentDate (df : List Order) : Nat :=
  (orderDays df).foldl max 0

/-- Embeds create_rfm_df: per customer (groupby sorts its keys) the distinct
order count, the summed total price, and the day difference between the
latest order day of the received table and the day of the customer latest
order timestamp. -/
def create_rfm_df (df : List Order) : List RfmRow :=
  (insertionSort natLe (df.map Order.customer_id).dedup).map (fun c =>
    { customer_id := c
      frequency := nunique ((customerRows df c).map Order.order_id)
      monetary := ((customerRows df c).map Order.total_price).sum
      recency := (recentDate df : Int) - (dayOf (custMaxTime df c) : Int) })

/-- Embeds the main_df filter: keep the rows whose timestamp is between
pd.to_datetime of the start date and pd.to_datetime of the end date, both
of which sit at midnight of their day. -/
def filterByDate (df : List Order) (startD endD : Nat) : List Order :=
  df.filter (fun r =>
    decide (midnight startD ≤ r.order_date ∧ r.order_date ≤ midnight endD))

/-- Modelled from the spec: the rendering of the age chart (px.bar over an
ordered pandas Categorical axis) is presentation code outside the aggregator
functions; per the spec the labelled bars appear in the fixed category
order, and a row whose category is null gets no labelled bar. -/
def renderAgeBars (rows : List AgeRow) : List AgeRow :=
  ageCategories.filterMap (fun c => rows.find? (fun row => decide (row.age_group = some c)))

/-! Helper lemmas about the list combinators of the embedding. -/

theorem insertLe_perm (le : α → α → Bool) (x : α) (l : List α) :
    List.Perm (insertLe le x l) (x :: l) := by
  induction l with
  | nil => exact List.Perm.refl _
  | cons y ys ih =>
    simp only [insertLe]
    split
    · exact List.Perm.refl _
    · exact (ih.cons y).trans (List.Perm.swap x y ys)

theorem insertionSort_perm (le : α → α → Bool) (l : List α) :
    List.Perm (insertionSort le l) l := by
  induction l with
  | nil => exact List.Perm.refl _
  | cons x xs ih =>
    exact (insertLe_perm le x (insertionSort le xs)).trans (ih.cons x)

theorem mem_insertionSort (le : α → α → Bool) (l : List α) (x : α) :
    x ∈ insertionSort le l ↔ x ∈ l :=
  (insertionSort_perm le l).mem_iff

theorem init_le_foldl_max (l : List Nat) (a : Nat) : a ≤ l.foldl max a := by
  induction l generalizing a with
  | nil => exact le_refl a
  | cons y ys ih => exact le_trans (le_max_left a y) (ih (max a y))

theorem le_foldl_max (l : List Nat) : ∀ (a x : Nat), x ∈ l → x ≤ l.foldl max a := by
  induction l with
  | nil => intro a x hx; cases hx
  | cons y ys ih =>
    intro a x hx
    rcases List.mem_cons.mp hx with rfl | hx
    · exact le_trans (le_max_right a x) (init_le_foldl_max ys (max a x))
    · exact ih (max a y) x hx

theorem foldl_max_le (l : List Nat) :
    ∀ (a b : Nat), a ≤ b → (∀ x ∈ l, x ≤ b) → l.foldl max a ≤ b := by
  induction l with
  | nil => intro a b ha _; exact ha
  | cons y ys ih =>
    intro a b ha h
    exact ih (max a y) b (max_le ha (h y (List.mem_cons_self y ys)))
      (fun x hx => h x (List.mem_cons_of_mem y hx))

theorem foldl_max_eq_or_mem (l : List Nat) (a : Nat) :
    l.foldl max a = a ∨ l.foldl max a ∈ l := by
  induction l generalizing a with
  | nil => exact Or.inl rfl
  | cons y ys ih =>
    rcases ih (max a y) with h | h
    · rcases le_total a y with hay | hya
      · right
        rw [List.foldl_cons, h, max_eq_right hay]
        exact List.mem_cons_self y ys
      · left
        rw [List.foldl_cons, h, max_eq_left hya]
    · right
      exact List.mem_cons_of_mem y h

theorem dayOf_mono {s t : Nat} (h : s ≤ t) : dayOf s ≤ dayOf t :=
  Nat.div_le_div_right h

theorem dayOf_max (s t : Nat) : dayOf (max s t) = max (dayOf s) (dayOf t) := by
  rcases le_total s t with h | h
  · rw [max_eq_right h, max_eq_right (dayOf_mono h)]
  · rw [max_eq_left h, max_eq_left (dayOf_mono h)]

theorem dayOf_foldl_max (l : List Nat) (a : Nat) :
    dayOf (l.foldl max a) = (l.map dayOf).foldl max (dayOf a) := by
  induction l generalizing a with
  | nil => rfl
  | cons y ys ih =>
    rw [List.foldl_cons, ih (max a y), dayOf_max, List.map_cons, List.foldl_cons]

theorem listMin?_isSome (l : List Nat) (h : l ≠ []) : ∃ m, listMin? l = some m := by
  cases l with
  | nil => exact absurd rfl h
  | cons x xs =>
    cases h' : listMin? xs with
    | none => exact ⟨x, by simp [listMin?, h']⟩
    | some m => exact ⟨min x m, by simp [listMin?, h']⟩

theorem listMax?_isSome (l : List Nat) (h : l ≠ []) : ∃ m, listMax? l = some m := by
  cases l with
  | nil => exact absurd rfl h
  | cons x xs =>
    cases h' : listMax? xs with
    | none => exact ⟨x, by simp [listMax?, h']⟩
    | some m => exact ⟨max x m, by simp [listMax?, h']⟩

theorem listMin?_eq_none (l : List Nat) (h : listMin? l = none) : l = [] := by
  cases l with
  | nil => rfl
  | cons x xs => cases h' : listMin? xs <;> simp [listMin?, h'] at h

theorem listMax?_eq_none (l : List Nat) (h : listMax? l = none) : l = [] := by
  cases l with
  | nil => rfl
  | cons x xs => cases h' : listMax? xs <;> simp [listMax?, h'] at h

theorem listMin?_le (l : List Nat) (m : Nat) (hm : listMin? l = some m) :
    ∀ x ∈ l, m ≤ x := by
  induction l generalizing m with
  | nil => simp [listMin?] at hm
  | cons y ys ih =>
    intro x hx
    rcases List.mem_cons.mp hx with rfl | hx
    · cases h' : listMin? ys with
      | none => simp [listMin?, h'] at hm; omega
      | some k => simp [listMin?, h'] at hm; omega
    · cases h' : listMin? ys with
      | none => rw [listMin?_eq_none ys h'] at hx; cases hx
      | some k =>
        simp [listMin?, h'] at hm
        have := ih k h' x hx
        omega

theorem listMax?_ge (l : List Nat) (m : Nat) (hm : listMax? l = some m) :
    ∀ x ∈ l, x ≤ m := by
  induction l generalizing m with
  | nil => simp [listMax?] at hm
  | cons y ys ih =>
    intro x hx
    rcases List.mem_cons.mp hx with rfl | hx
    · cases h' : listMax? ys with
      | none => simp [listMax?, h'] at hm; omega
      | some k => simp [listMax?, h'] at hm; omega
    · cases h' : listMax? ys with
      | none => rw [listMax?_eq_none ys h'] at hx; cases hx
      | some k =>
        simp [listMax?, h'] at hm
        have := ih k h' x hx
        omega

theorem mem_daysRange (lo hi d : Nat) : d ∈ daysRange lo hi ↔ lo ≤ d ∧ d ≤ hi := by
  simp only [daysRange, List.mem_map, List.mem_range]
  constructor
  · rintro ⟨i, hi', rfl⟩
    omega
  · rintro ⟨h1, h2⟩
    exact ⟨d - lo, by omega, by omega⟩

theorem nodup_daysRange (lo hi : Nat) : (daysRange lo hi).Nodup := by
  refine List.Nodup.map ?_ (List.nodup_range _)
  intro a b hab
  have h : lo + a = lo + b := hab
  omega

/-! Example tables used by the concrete theorems below.  Day 0 of the clock
stands for 2024-01-01, so day 2 stands for 2024-01-03. -/

/-- Two orders of one customer: order 1 on day 0 for 10 and order 2 on
day 2 for 20; the example table of the spec. -/
def sampleOrders : List Order :=
  [⟨1, 7, midnight 0, "A", 1, 10, "M", "Adults", "X"⟩,
   ⟨2, 7, midnight 2, "A", 1, 20, "M", "Adults", "X"⟩]

/-- C8 counterexample: an order timestamped 600 minutes into day 0 is dated
on the selected start and end day 0, yet the filter with start = end = 0
drops it, because the end bound of the filter sits at midnight of the end
day while the order timestamp lies later in that day. -/
theorem C8_counterexample :
    filterByDate [⟨1, 7, 600, "A", 1, 10, "M", "Adults", "X"⟩] 0 0 = [] ∧
    dayOf 600 = 0 := by decide

/-- C8 (amended): a row passes the date filter exactly when it is a row of
the table, its order day lies in the inclusive selected range, and, when its
order day is the end day itself, its timestamp is exactly midnight of that
day; rows of the start day and of interior days are kept in full, but a row
later in the end day is dropped. -/
theorem C8_filter_inclusive_range (df : List Order) (s e : Nat) (r : Order) :
    r ∈ filterByDate df s e ↔
      r ∈ df ∧ s ≤ dayOf r.order_date ∧ dayOf r.order_date ≤ e ∧
        (dayOf r.order_date = e → r.order_date = midnight e) := by
  have hm : r ∈ filterByDate df s e ↔
      r ∈ df ∧ (midnight s ≤ r.order_date ∧ r.order_date ≤ midnight e) := by
    simp [filterByDate, List.mem_filter]
  rw [hm]
  unfold midnight dayOf minutesPerDay
  constructor
  · rintro ⟨hmem, h1, h2⟩
    refine ⟨hmem, by omega, by omega, ?_⟩
    intro hd
    omega
  · rintro ⟨hmem, h1, h2, h3⟩
    refine ⟨hmem, by omega, ?_⟩
    by_cases hd : r.order_date / 1440 = e
    · have h4 := h3 hd
      omega
    · omega

/-- C4: the six aggregate tables are computed from the filtered rows alone;
inserting into the dataset an extra row whose timestamp lies outside the
selected range leaves every aggregate unchanged. -/
theorem C4_aggregates_only_filtered (pre post : List Order) (r : Order) (s e : Nat)
    (h : r.order_date < midnight s ∨ midnight e < r.order_date) :
    create_daily_orders_df (filterByDate (pre ++ r :: post) s e) =
        create_daily_orders_df (filterByDate (pre ++ post) s e) ∧
    create_sum_order_items_df (filterByDate (pre ++ r :: post) s e) =
        create_sum_order_items_df (filterByDate (pre ++ post) s e) ∧
    create_bygender_df (filterByDate (pre ++ r :: post) s e) =
        create_bygender_df (filterByDate (pre ++ post) s e) ∧
    create_byage_df (filterByDate (pre ++ r :: post) s e) =
        create_byage_df (filterByDate (pre ++ post) s e) ∧
    create_bystate_df (filterByDate (pre ++ r :: post) s e) =
        create_bystate_df (filterByDate (pre ++ post) s e) ∧
    create_rfm_df (filterByDate (pre ++ r :: post) s e) =
        create_rfm_df (filterByDate (pre ++ post) s e) := by
  have hr : (decide (midnight s ≤ r.order_date ∧ r.order_date ≤ midnight e)) = false := by
    apply decide_eq_false
    rintro ⟨h1, h2⟩
    unfold midnight minutesPerDay at h1 h2 h
    rcases h with h | h <;> omega
  have key : filterByDate (pre ++ r :: post) s e = filterByDate (pre ++ post) s e := by
    simp only [filterByDate, List.filter_append, List.filter_cons, hr]
    simp
  rw [key]
  exact ⟨rfl, rfl, rfl, rfl, rfl, rfl⟩

/-- An order inside the selected day 0 of the C4 witness. -/
def exC4In : Order := ⟨1, 7, 0, "A", 1, 10, "M", "Adults", "X"⟩

/-- An order outside the selected day 0 of the C4 witness. -/
def exC4Out : Order := ⟨2, 8, 2000, "B", 2, 20, "F", "Seniors", "Y"⟩

theorem C4_witness :
    (exC4Out.order_date < midnight 0 ∨ midnight 0 < exC4Out.order_date) ∧
    (create_daily_orders_df (filterByDate ([] ++ exC4Out :: [exC4In]) 0 0) =
        create_daily_orders_df (filterByDate ([] ++ [exC4In]) 0 0) ∧
     create_sum_order_items_df (filterByDate ([] ++ exC4Out :: [exC4In]) 0 0) =
        create_sum_order_items_df (filterByDate ([] ++ [exC4In]) 0 0) ∧
     create_bygender_df (filterByDate ([] ++ exC4Out :: [exC4In]) 0 0) =
        create_bygender_df (filterByDate ([] ++ [exC4In]) 0 0) ∧
     create_byage_df (filterByDate ([] ++ exC4Out :: [exC4In]) 0 0) =
        create_byage_df (filterByDate ([] ++ [exC4In]) 0 0) ∧
     create_bystate_df (filterByDate ([] ++ exC4Out :: [exC4In]) 0 0) =
        create_bystate_df (filterByDate ([] ++ [exC4In]) 0 0) ∧
     create_rfm_df (filterByDate ([] ++ exC4Out :: [exC4In]) 0 0) =
        create_rfm_df (filterByDate ([] ++ [exC4In]) 0 0)) :=
  ⟨by decide, C4_aggregates_only_filtered [] [exC4In] exC4Out 0 0 (by decide)⟩

theorem sum_filter_groups (K : Finset String) :
    ∀ (l : List Order), (∀ r ∈ l, r.product_name ∈ K) →
      (∑ p ∈ K, ((l.filter (fun r => decide (r.product_name = p))).map Order.quantity_x).sum)
        = (l.map Order.quantity_x).sum := by
  intro l
  induction l with
  | nil => intro _; simp
  | cons x xs ih =>
    intro hcov
    have hx : x.product_name ∈ K := hcov x (List.mem_cons_self x xs)
    have hxs : ∀ r ∈ xs, r.product_name ∈ K :=
      fun r hr => hcov r (List.mem_cons_of_mem x hr)
    have hsplit : ∀ p : String,
        (((x :: xs).filter (fun r => decide (r.product_name = p))).map Order.quantity_x).sum
          = (if x.product_name = p then x.quantity_x else 0)
            + ((xs.filter (fun r => decide (r.product_name = p))).map Order.quantity_x).sum := by
      intro p
      by_cases hp : x.product_name = p
      · simp [List.filter_cons, hp]
      · simp [List.filter_cons, hp]
    calc (∑ p ∈ K, (((x :: xs).filter (fun r => decide (r.product_name = p))).map Order.quantity_x).sum)
        = ∑ p ∈ K, ((if x.product_name = p then x.quantity_x else 0)
            + ((xs.filter (fun r => decide (r.product_name = p))).map Order.quantity_x).sum) :=
          Finset.sum_congr rfl (fun p _ => hsplit p)
      _ = (∑ p ∈ K, if x.product_name = p then x.quantity_x else 0)
            + ∑ p ∈ K, ((xs.filter (fun r => decide (r.product_name = p))).map Order.quantity_x).sum :=
          Finset.sum_add_distrib
      _ = x.quantity_x + (xs.map Order.quantity_x).sum := by
          rw [Finset.sum_ite_eq K x.product_name (fun _ => x.quantity_x), if_pos hx, ih hxs]
      _ = ((x :: xs).map Order.quantity_x).sum := by simp

/-- C5: the product volume aggregate preserves total quantity: the sum of
the per product summed quantities equals the sum of the quantity column of
the table. -/
theorem C5_product_volume_sum (df : List Order) :
    ((create_sum_order_items_df df).map ProductRow.quantity_x).sum
      = (df.map Order.quantity_x).sum := by
  simp only [create_sum_order_items_df]
  rw [List.Perm.sum_eq (List.Perm.map ProductRow.quantity_x (insertionSort_perm qtyGe _))]
  rw [List.map_map]
  rw [List.Perm.sum_eq (List.Perm.map _ (insertionSort_perm strLe _))]
  rw [← List.sum_toFinset _ (List.nodup_dedup (df.map Order.product_name))]
  exact sum_filter_groups _ df (fun r hr => by
    rw [List.mem_toFinset, List.mem_dedup]
    exact List.mem_map_of_mem Order.product_name hr)

/-- C1 counterexample: a filtered table in which the same order id is dated
on two different calendar days; the daily counts of distinct order ids sum
to 2 although the table holds a single distinct order id. -/
theorem C1_counterexample :
    ((create_daily_orders_df
        [⟨1, 7, midnight 0, "A", 1, 10, "M", "Adults", "X"⟩,
         ⟨1, 7, midnight 1, "A", 1, 20, "M", "Adults", "X"⟩]).map DailyRow.order_count).sum = 2 ∧
    nunique ([⟨1, 7, midnight 0, "A", 1, 10, "M", "Adults", "X"⟩,
         ⟨1, 7, midnight 1, "A", 1, 20, "M", "Adults", "X"⟩].map Order.order_id) = 1 := by
  decide

/-- C1 (amended): for a non-empty filtered table in which any two rows
sharing an order id share the order day, the sum of the order_count column
of the daily orders aggregate equals the number of distinct order ids of
the table. -/
theorem C1_daily_count_sum (df : List Order) (hne : df ≠ [])
    (huniq : ∀ r1 ∈ df, ∀ r2 ∈ df, r1.order_id = r2.order_id →
      dayOf r1.order_date = dayOf r2.order_date) :
    ((create_daily_orders_df df).map DailyRow.order_count).sum
      = nunique (df.map Order.order_id) := by
  have hdays : orderDays df ≠ [] := by
    cases df with
    | nil => exact absurd rfl hne
    | cons x xs => simp [orderDays]
  obtain ⟨lo, hlo⟩ := listMin?_isSome _ hdays
  obtain ⟨hi, hhi⟩ := listMax?_isSome _ hdays
  have hcomp :
      (create_daily_orders_df df).map DailyRow.order_count
        = (daysRange lo hi).map (fun d => nunique ((rowsOnDay df d).map Order.order_id)) := by
    simp only [create_daily_orders_df, hlo, hhi]
    rw [List.map_map]
    rfl
  rw [hcomp]
  have hcard :
      (daysRange lo hi).map (fun d => nunique ((rowsOnDay df d).map Order.order_id))
        = (daysRange lo hi).map
            (fun d => (((rowsOnDay df d).map Order.order_id).toFinset).card) := by
    simp only [nunique, List.card_toFinset]
  rw [hcard]
  rw [← List.sum_toFinset _ (nodup_daysRange lo hi)]
  have hdisj : ∀ x ∈ (daysRange lo hi).toFinset, ∀ y ∈ (daysRange lo hi).toFinset,
      x ≠ y → Disjoint (((rowsOnDay df x).map Order.order_id).toFinset)
        (((rowsOnDay df y).map Order.order_id).toFinset) := by
    intro x _ y _ hxy
    rw [Finset.disjoint_left]
    intro i hx hy
    simp only [List.mem_toFinset, List.mem_map, rowsOnDay, List.mem_filter,
      decide_eq_true_eq] at hx hy
    obtain ⟨r1, ⟨hr1, hd1⟩, hi1⟩ := hx
    obtain ⟨r2, ⟨hr2, hd2⟩, hi2⟩ := hy
    exact hxy (by rw [← hd1, ← hd2, huniq r1 hr1 r2 hr2 (hi1.trans hi2.symm)])
  rw [← Finset.card_biUnion hdisj]
  have hunion : ((daysRange lo hi).toFinset).biUnion
      (fun d => ((rowsOnDay df d).map Order.order_id).toFinset)
        = (df.map Order.order_id).toFinset := by
    ext i
    simp only [Finset.mem_biUnion, List.mem_toFinset, List.mem_map, rowsOnDay,
      List.mem_filter, decide_eq_true_eq, mem_daysRange]
    constructor
    · rintro ⟨d, _, r, ⟨hrdf, _⟩, rfl⟩
      exact ⟨r, hrdf, rfl⟩
    · rintro ⟨r, hrdf, rfl⟩
      refine ⟨dayOf r.order_date, ⟨?_, ?_⟩, r, ⟨hrdf, rfl⟩, rfl⟩
      · exact listMin?_le _ lo hlo _ (List.mem_map_of_mem _ hrdf)
      · exact listMax?_ge _ hi hhi _ (List.mem_map_of_mem _ hrdf)
  rw [hunion, List.card_toFinset]
  rfl

theorem C1_witness :
    sampleOrders ≠ [] ∧
    (∀ r1 ∈ sampleOrders, ∀ r2 ∈ sampleOrders, r1.order_id = r2.order_id →
      dayOf r1.order_date = dayOf r2.order_date) ∧
    ((create_daily_orders_df sampleOrders).map DailyRow.order_count).sum
      = nunique (sampleOrders.map Order.order_id) :=
  ⟨by decide, by decide, C1_daily_count_sum sampleOrders (by decide) (by decide)⟩

/-- C9: the daily orders aggregate carries exactly one row per calendar day
of the span from the earliest to the latest order day of the table (the day
column is exactly that duplicate-free span, characterised by its bounds),
and any row for a day on which no order of the table falls has order count 0
and revenue 0. -/
theorem C9_daily_rows_span (df : List Order) (lo hi : Nat)
    (hlo : listMin? (orderDays df) = some lo) (hhi : listMax? (orderDays df) = some hi) :
    ((create_daily_orders_df df).map DailyRow.order_date = daysRange lo hi) ∧
    (daysRange lo hi).Nodup ∧
    (∀ d, d ∈ daysRange lo hi ↔ lo ≤ d ∧ d ≤ hi) ∧
    (∀ row ∈ create_daily_orders_df df,
      (∀ r ∈ df, dayOf r.order_date ≠ row.order_date) →
        row.order_count = 0 ∧ row.revenue = 0) := by
  refine ⟨?_, nodup_daysRange lo hi, fun d => mem_daysRange lo hi d, ?_⟩
  · simp only [create_daily_orders_df, hlo, hhi]
    rw [List.map_map]
    have hid : (DailyRow.order_date ∘ fun d =>
        ({ order_date := d
           order_count := nunique ((rowsOnDay df d).map Order.order_id)
           revenue := ((rowsOnDay df d).map Order.total_price).sum } : DailyRow)) = id := rfl
    rw [hid, List.map_id]
  · intro row hrow hno
    simp only [create_daily_orders_df, hlo, hhi, List.mem_map] at hrow
    obtain ⟨d, hd, rfl⟩ := hrow
    have hempty : rowsOnDay df d = [] := by
      rw [rowsOnDay, List.filter_eq_nil_iff]
      intro r hr
      simp only [decide_eq_true_eq]
      exact hno r hr
    constructor
    · show nunique ((rowsOnDay df d).map Order.order_id) = 0
      rw [hempty]
      rfl
    · show ((rowsOnDay df d).map Order.total_price).sum = 0
      rw [hempty]
      rfl

theorem C9_witness :
    listMin? (orderDays sampleOrders) = some 0 ∧
    listMax? (orderDays sampleOrders) = some 2 ∧
    (((create_daily_orders_df sampleOrders).map DailyRow.order_date = daysRange 0 2) ∧
     (daysRange 0 2).Nodup ∧
     (∀ d, d ∈ daysRange 0 2 ↔ 0 ≤ d ∧ d ≤ 2) ∧
     (∀ row ∈ create_daily_orders_df sampleOrders,
       (∀ r ∈ sampleOrders, dayOf r.order_date ≠ row.order_date) →
         row.order_count = 0 ∧ row.revenue = 0)) :=
  ⟨by decide, by decide, C9_daily_rows_span sampleOrders 0 2 (by decide) (by decide)⟩

/-- C2 counterexample: on the example table of the spec (orders of one
customer on day 0 for 10 and day 2 for 20, the days standing for 2024-01-01
and 2024-01-03), the daily orders aggregate does not have two rows: the
resample fills the empty middle day, giving three rows. -/
theorem C2_counterexample :
    create_daily_orders_df sampleOrders = [⟨0, 1, 10⟩, ⟨1, 0, 0⟩, ⟨2, 1, 20⟩] ∧
    (create_daily_orders_df sampleOrders).length ≠ 2 := by decide

/-- C2 (amended): on the example table of the spec the daily orders
aggregate has three rows, one per day of the span, with order counts
(1, 0, 1) and revenues (10, 0, 20), and the RFM aggregate holds the single
row of the customer with frequency 2, monetary 30 and recency 0. -/
theorem C2_example_aggregates :
    create_daily_orders_df sampleOrders = [⟨0, 1, 10⟩, ⟨1, 0, 0⟩, ⟨2, 1, 20⟩] ∧
    create_rfm_df sampleOrders = [⟨7, 2, 30, 0⟩] := by decide

/-- The full dataset of the C3 counterexample: customer 1 orders on day 0,
customer 2 orders on day 5. -/
def c3All : List Order :=
  [⟨1, 1, midnight 0, "A", 1, 10, "M", "Adults", "X"⟩,
   ⟨2, 2, midnight 5, "A", 1, 20, "M", "Adults", "X"⟩]

/-- C3 counterexample: filtering the dataset to day 0 alone and building the
RFM table gives customer 1 recency 0, while the day distance from the most
recent order of customer 1 to the overall unfiltered maximum order day is
5; the recency column is computed against the filtered table, not against
the unfiltered dataset. -/
theorem C3_counterexample :
    (create_rfm_df (filterByDate c3All 0 0)).map RfmRow.recency = [0] ∧
    recentDate c3All = 5 ∧
    ((customerRows (filterByDate c3All 0 0) 1).map (fun r => dayOf r.order_date)).foldl max 0
      = 0 ∧
    (0 : Int) ≠ 5 - 0 := by decide

/-- C3 (amended): every row of the RFM aggregate has recency equal to the
day difference between the latest order day of the table given to
create_rfm_df (the filtered table, not the unfiltered dataset) and the
latest order day of that customer within the same table. -/
theorem C3_recency_from_received_table (df : List Order) (row : RfmRow)
    (hrow : row ∈ create_rfm_df df) :
    row.recency = (recentDate df : Int)
      - ((((customerRows df row.customer_id).map (fun r => dayOf r.order_date)).foldl max 0 : Nat) : Int) := by
  simp only [create_rfm_df, List.mem_map] at hrow
  obtain ⟨c, _, rfl⟩ := hrow
  have hdays : dayOf (custMaxTime df c)
      = ((customerRows df c).map (fun r => dayOf r.order_date)).foldl max 0 := by
    rw [custMaxTime, dayOf_foldl_max, List.map_map]
    rfl
  show (recentDate df : Int) - (dayOf (custMaxTime df c) : Int) = _
  rw [hdays]

theorem C3_witness :
    (⟨7, 2, 30, 0⟩ : RfmRow) ∈ create_rfm_df sampleOrders ∧
    (⟨7, 2, 30, 0⟩ : RfmRow).recency = (recentDate sampleOrders : Int)
      - ((((customerRows sampleOrders 7).map (fun r => dayOf r.order_date)).foldl max 0 : Nat) : Int) :=
  ⟨by decide, C3_recency_from_received_table sampleOrders ⟨7, 2, 30, 0⟩ (by decide)⟩

/-- C6: a customer owning a row whose order day is maximal in the table has
an RFM row with recency 0. -/
theorem C6_latest_customer_recency_zero (df : List Order) (r : Order) (hr : r ∈ df)
    (hmax : ∀ r2 ∈ df, dayOf r2.order_date ≤ dayOf r.order_date) :
    ∃ row ∈ create_rfm_df df, row.customer_id = r.customer_id ∧ row.recency = 0 := by
  have hkey : r.customer_id ∈ insertionSort natLe (df.map Order.customer_id).dedup := by
    rw [mem_insertionSort, List.mem_dedup]
    exact List.mem_map_of_mem _ hr
  refine ⟨_, List.mem_map_of_mem _ hkey, rfl, ?_⟩
  show (recentDate df : Int) - (dayOf (custMaxTime df r.customer_id) : Int) = 0
  have h1 : recentDate df = dayOf r.order_date := by
    apply le_antisymm
    · refine foldl_max_le _ 0 _ (Nat.zero_le _) (fun x hx => ?_)
      obtain ⟨r2, hr2, rfl⟩ := List.mem_map.mp hx
      exact hmax r2 hr2
    · exact le_foldl_max _ 0 _ (List.mem_map_of_mem _ hr)
  have h2 : dayOf (custMaxTime df r.customer_id) = dayOf r.order_date := by
    apply le_antisymm
    · rcases foldl_max_eq_or_mem
        ((customerRows df r.customer_id).map Order.order_date) 0 with h | h
      · show dayOf (((customerRows df r.customer_id).map Order.order_date).foldl max 0) ≤ _
        rw [h]
        exact Nat.zero_le _
      · obtain ⟨r2, hr2, hEq⟩ := List.mem_map.mp h
        show dayOf (((customerRows df r.customer_id).map Order.order_date).foldl max 0) ≤ _
        rw [← hEq]
        exact hmax r2 (List.mem_of_mem_filter hr2)
    · apply dayOf_mono
      apply le_foldl_max
      apply List.mem_map_of_mem
      rw [customerRows, List.mem_filter]
      exact ⟨hr, by simp⟩
  rw [h1, h2]
  exact sub_self _

theorem C6_witness :
    (⟨2, 7, midnight 2, "A", 1, 20, "M", "Adults", "X"⟩ : Order) ∈ sampleOrders ∧
    (∀ r2 ∈ sampleOrders, dayOf r2.order_date
      ≤ dayOf (⟨2, 7, midnight 2, "A", 1, 20, "M", "Adults", "X"⟩ : Order).order_date) ∧
    (∃ row ∈ create_rfm_df sampleOrders, row.customer_id = 7 ∧ row.recency = 0) :=
  ⟨by decide, by decide,
    C6_latest_customer_recency_zero sampleOrders
      ⟨2, 7, midnight 2, "A", 1, 20, "M", "Adults", "X"⟩ (by decide) (by decide)⟩

theorem byage_find_eq (df : List Order) (c : String) (hc : c ∈ ageCategories) :
    ((create_byage_df df).find? (fun row => decide (row.age_group = some c))).map
        (fun row => row.age_group)
      = if c ∈ df.map Order.age_group then some (some c) else none := by
  cases hfind : (create_byage_df df).find? (fun row => decide (row.age_group = some c)) with
  | none =>
    have hnone : ∀ row ∈ create_byage_df df, ¬ (row.age_group = some c) := by
      intro row hrow hEq
      exact (List.find?_eq_none.mp hfind row hrow) (decide_eq_true hEq)
    have hnotmem : c ∉ df.map Order.age_group := by
      intro hmem
      have hkey : c ∈ ageKeys df := by
        rw [ageKeys, mem_insertionSort, List.mem_dedup]
        exact hmem
      refine hnone _ (List.mem_map_of_mem _ hkey) ?_
      show (if c ∈ ageCategories then some c else none) = some c
      rw [if_pos hc]
    rw [if_neg hnotmem]
    rfl
  | some row =>
    have hpa := List.find?_some hfind
    have hp : row.age_group = some c := of_decide_eq_true hpa
    have hmemrow : row ∈ create_byage_df df := List.mem_of_find?_eq_some hfind
    obtain ⟨g, hg, rfl⟩ := List.mem_map.mp hmemrow
    have hgval : (if g ∈ ageCategories then some g else none) = some c := hp
    have hgc : g = c := by
      by_cases h : g ∈ ageCategories
      · rw [if_pos h] at hgval
        exact Option.some.inj hgval
      · rw [if_neg h] at hgval
        cases hgval
    subst hgc
    have hmem : g ∈ List.map Order.age_group df := by
      rw [ageKeys, mem_insertionSort, List.mem_dedup] at hg
      exact hg
    rw [if_pos hmem]
    show some (if g ∈ ageCategories then some g else none) = some (some g)
    rw [if_pos hc]

/-- C7: the labelled bars of the age chart appear in the fixed category
order Youth, Adults, Seniors whatever the order of the input rows: the
rendered label sequence equals the fixed category list restricted to the
groups present in the input table, so it never depends on input order. -/
theorem C7_age_render_fixed_order (df : List Order) :
    (renderAgeBars (create_byage_df df)).map (fun row => row.age_group)
      = (ageCategories.filter (fun c => decide (c ∈ df.map Order.age_group))).map some := by
  have h1 := byage_find_eq df "Youth" (by decide)
  have h2 := byage_find_eq df "Adults" (by decide)
  have h3 := byage_find_eq df "Seniors" (by decide)
  rw [renderAgeBars, List.map_filterMap]
  by_cases hy : "Youth" ∈ df.map Order.age_group <;>
    by_cases ha : "Adults" ∈ df.map Order.age_group <;>
      by_cases hs : "Seniors" ∈ df.map Order.age_group <;>
        simp [-List.mem_map, ageCategories, List.filterMap_cons, h1, h2, h3, hy, ha, hs]

/-- C10: an age group label other than the three fixed categories is turned
into the null category by create_byage_df (its aggregate row keeps the
customer count of the group but loses the label), and no labelled bar of
the rendered age chart carries that label. -/
theorem C10_unknown_age_group_null (df : List Order) (g : String)
    (hg : g ∈ df.map Order.age_group) (hgc : g ∉ ageCategories) :
    (∃ row ∈ create_byage_df df, row.age_group = none ∧
        row.customer_count
          = nunique ((df.filter (fun r => decide (r.age_group = g))).map Order.customer_id)) ∧
    (∀ row ∈ renderAgeBars (create_byage_df df), row.age_group ≠ some g) := by
  constructor
  · have hkey : g ∈ ageKeys df := by
      rw [ageKeys, mem_insertionSort, List.mem_dedup]
      exact hg
    refine ⟨_, List.mem_map_of_mem _ hkey, ?_, rfl⟩
    show (if g ∈ ageCategories then some g else none) = none
    rw [if_neg hgc]
  · intro row hrow hEq
    rw [renderAgeBars] at hrow
    obtain ⟨c, hc, hfind⟩ := List.mem_filterMap.mp hrow
    have hpa := List.find?_some hfind
    have hlab : row.age_group = some c := of_decide_eq_true hpa
    rw [hEq] at hlab
    have hcg : c = g := (Option.some.inj hlab).symm
    exact hgc (hcg ▸ hc)

/-- The table of the C10 witness: one customer in the unknown age group
Kids. -/
def exC10 : List Order := [⟨1, 7, midnight 0, "A", 1, 10, "M", "Kids", "X"⟩]

theorem C10_witness :
    ("Kids" ∈ exC10.map Order.age_group) ∧
    ("Kids" ∉ ageCategories) ∧
    ((∃ row ∈ create_byage_df exC10, row.age_group = none ∧
        row.customer_count
          = nunique ((exC10.filter (fun r => decide (r.age_group = "Kids"))).map Order.customer_id)) ∧
     (∀ row ∈ renderAgeBars (create_byage_df exC10), row.age_group ≠ some "Kids")) :=
  ⟨by decide, by decide, C10_unknown_age_group_null exC10 "Kids" (by decide) (by decide)⟩
